import Mathlib

set_option maxHeartbeats 1000000
set_option linter.unusedVariables false

/-! Verification development for the VibeVoice demo client
(demo/api_demo.py).  The file embeds the streaming poll loop
(run_streaming_session), the payload decoder (decode_payload_to_file,
built on base64), and the single-shot full-generation path
(run_full_generation) as pure Lean functions, and proves the documented
properties of chunk sequencing, stop/sleep policy, log handling and
payload decoding against them. -/

namespace ApiDemo

/-- Filesystem paths are modelled as lists of path segments; appending a
segment models the pathlib `/` operator. -/
abbrev FsPath := List String

/-- Raw binary data is modelled as a list of byte values (each < 256). -/
abbrev Bytes := List Nat

/-! ## Base64 transport codec

Model of the stdlib `base64.b64decode` used by the source (strict
canonical base64: the alphabet, groups of four characters, and terminal
padding; the Python decoder agrees with this model on every canonical
encoding and on every input exercised below), together with the standard
encoder `b64encode` that produced the transport payloads. -/

/-- Standard base64 alphabet, in value order. -/
def b64Chars : List Char :=
  "ABCDEFGHIJKLMNOPQRSTUVWXYZabcdefghijklmnopqrstuvwxyz0123456789+/".data

/-- Character for a 6-bit value. -/
def b64Char (n : Nat) : Char := b64Chars.getD n 'A'

/-- Value of an alphabet character, none for characters outside the
alphabet. -/
def b64CharVal (c : Char) : Option Nat := b64Chars.findIdx? (fun d => d == c)

/-- Base64 encoder over characters: three bytes to four characters, with
terminal `=` padding for a final group of one or two bytes. -/
def b64encodeChars : List Nat → List Char
  | [] => []
  | [b1] => [b64Char (b1 / 4), b64Char (b1 % 4 * 16), '=', '=']
  | [b1, b2] =>
    [b64Char (b1 / 4), b64Char (b1 % 4 * 16 + b2 / 16), b64Char (b2 % 16 * 4), '=']
  | b1 :: b2 :: b3 :: rest =>
    b64Char (b1 / 4) :: b64Char (b1 % 4 * 16 + b2 / 16) ::
      b64Char (b2 % 16 * 4 + b3 / 64) :: b64Char (b3 % 64) :: b64encodeChars rest

/-- Base64 decoder over characters, modelling `base64.b64decode`: groups
of four alphabet characters, the last group optionally padded with one or
two `=`; anything else fails (Python raises binascii.Error on those
inputs). -/
def b64decodeChars : List Char → Option (List Nat)
  | [] => some []
  | c1 :: c2 :: c3 :: c4 :: rest =>
    match b64CharVal c1, b64CharVal c2 with
    | some v1, some v2 =>
      if c3 = '=' then
        if c4 = '=' then
          if rest = [] then some [v1 * 4 + v2 / 16] else none
        else none
      else
        match b64CharVal c3 with
        | some v3 =>
          if c4 = '=' then
            if rest = [] then some [v1 * 4 + v2 / 16, v2 % 16 * 16 + v3 / 4]
            else none
          else
            match b64CharVal c4, b64decodeChars rest with
            | some v4, some tail =>
              some ((v1 * 4 + v2 / 16) :: (v2 % 16 * 16 + v3 / 4) ::
                (v3 % 4 * 64 + v4) :: tail)
            | _, _ => none
        | none => none
    | _, _ => none
  | _ => none

/-- Transport encoding of raw bytes as a string. -/
def b64encode (bs : Bytes) : String := String.mk (b64encodeChars bs)

/-- Transport decoding of a string payload, as performed by
`base64.b64decode` in the source. -/
def b64decode (s : String) : Option Bytes := b64decodeChars s.data

theorem b64CharVal_b64Char : ∀ n, n < 64 → b64CharVal (b64Char n) = some n := by
  decide

theorem b64Char_ne_pad : ∀ n, n < 64 → b64Char n ≠ '=' := by
  decide

theorem b64decodeChars_encodeChars :
    ∀ (k : Nat) (bs : Bytes), bs.length ≤ k → (∀ b ∈ bs, b < 256) →
      b64decodeChars (b64encodeChars bs) = some bs := by
  intro k
  induction k with
  | zero =>
    intro bs hl hb
    have : bs = [] := List.length_eq_zero.mp (Nat.le_zero.mp hl)
    subst this
    rfl
  | succ k ih =>
    intro bs hl hb
    match bs with
    | [] => rfl
    | [b1] =>
      have h1 : b1 < 256 := hb b1 (by simp)
      simp only [b64encodeChars, b64decodeChars]
      rw [b64CharVal_b64Char _ (by omega), b64CharVal_b64Char _ (by omega)]
      simp only [reduceIte]
      congr 1
      congr 1
      omega
    | [b1, b2] =>
      have h1 : b1 < 256 := hb b1 (by simp)
      have h2 : b2 < 256 := hb b2 (by simp)
      have e1 : b64CharVal (b64Char (b1 / 4)) = some (b1 / 4) :=
        b64CharVal_b64Char _ (by omega)
      have e2 : b64CharVal (b64Char (b1 % 4 * 16 + b2 / 16))
          = some (b1 % 4 * 16 + b2 / 16) := b64CharVal_b64Char _ (by omega)
      have e3 : b64CharVal (b64Char (b2 % 16 * 4)) = some (b2 % 16 * 4) :=
        b64CharVal_b64Char _ (by omega)
      have n3 : b64Char (b2 % 16 * 4) ≠ '=' := b64Char_ne_pad _ (by omega)
      simp only [b64encodeChars, b64decodeChars, e1, e2, e3, n3, if_false,
        reduceIte, if_neg n3]
      congr 1
      congr 1
      · omega
      · congr 1
        omega
    | b1 :: b2 :: b3 :: rest =>
      have h1 : b1 < 256 := hb b1 (by simp)
      have h2 : b2 < 256 := hb b2 (by simp)
      have h3 : b3 < 256 := hb b3 (by simp)
      have hrest : ∀ b ∈ rest, b < 256 := by
        intro b hbmem
        exact hb b (by simp [hbmem])
      have hlen : rest.length ≤ k := by
        simp only [List.length_cons] at hl
        omega
      have e1 : b64CharVal (b64Char (b1 / 4)) = some (b1 / 4) :=
        b64CharVal_b64Char _ (by omega)
      have e2 : b64CharVal (b64Char (b1 % 4 * 16 + b2 / 16))
          = some (b1 % 4 * 16 + b2 / 16) := b64CharVal_b64Char _ (by omega)
      have e3 : b64CharVal (b64Char (b2 % 16 * 4 + b3 / 64))
          = some (b2 % 16 * 4 + b3 / 64) := b64CharVal_b64Char _ (by omega)
      have e4 : b64CharVal (b64Char (b3 % 64)) = some (b3 % 64) :=
        b64CharVal_b64Char _ (by omega)
      have n3 : b64Char (b2 % 16 * 4 + b3 / 64) ≠ '=' :=
        b64Char_ne_pad _ (by omega)
      have n4 : b64Char (b3 % 64) ≠ '=' := b64Char_ne_pad _ (by omega)
      have erec : b64decodeChars (b64encodeChars rest) = some rest :=
        ih rest hlen hrest
      simp only [b64encodeChars, b64decodeChars, e1, e2, e3, e4, if_neg n3,
        if_neg n4, erec]
      congr 1
      congr 1
      · omega
      · congr 1
        · omega
        · congr 1
          omega

theorem b64decode_b64encode (bs : Bytes) (hb : ∀ b ∈ bs, b < 256) :
    b64decode (b64encode bs) = some bs :=
  b64decodeChars_encodeChars bs.length bs (Nat.le_refl _) hb

/-! ## Data model

Poll responses, updates and payloads mirror the dictionaries exchanged by
the demo client; a field of type Option models a dictionary key that may
be absent. -/

/-- Payload dictionary: transport-encoded audio plus optional metadata.
An all-none payload models the empty dictionary, which Python treats as
falsy in the `if not payload` guard. -/
structure Payload where
  base64_wav : Option String
  sample_rate : Option Int
  num_samples : Option Int
deriving DecidableEq

/-- Python truthiness of the payload dictionary: empty iff no key is
present. -/
def Payload.isEmpty (p : Payload) : Bool :=
  p.base64_wav.isNone && p.sample_rate.isNone && p.num_samples.isNone

/-- One element of the `updates` list of a poll response. -/
structure Update where
  type : Option String
  payload : Option Payload
deriving DecidableEq

/-- Guard `if not payload` in the source: the payload key is absent or
its dictionary is empty. -/
def payloadEmpty (u : Update) : Bool :=
  match u.payload with
  | none => true
  | some p => p.isEmpty

/-- A poll response `{status, updates, log?, error?}`; a missing
`updates` key defaults to the empty list in the source and is modelled as
the empty list. -/
structure PollResponse where
  status : Option String
  updates : List Update
  log : Option String
  error : Option String
deriving DecidableEq

/-- Python exceptions that the embedded code can raise. -/
inductive PyError where
  | keyError (key : String)
  | binasciiError
  | valueError (msg : String)
deriving DecidableEq

/-- Observable side effects of a run, in order of occurrence. -/
inductive Event where
  | startCall
  | poll
  | mkdir (path : FsPath)
  | write (path : FsPath) (content : Bytes)
  | sleep (duration : Rat)
  | stopCall
deriving DecidableEq

/-- Local mutable state of the poll loop in run_streaming_session. -/
structure LoopState where
  chunkIndex : Nat
  lastLog : String
deriving DecidableEq

/-- How the poll loop ended on a finite script of responses. -/
inductive Outcome where
  | terminal (status : Option String)
  | exhausted
  | crashed (e : PyError)
deriving DecidableEq

/-- Result of driving the loop: emitted events, final loop state, and the
way the loop ended. -/
structure RunResult where
  events : List Event
  state : LoopState
  outcome : Outcome
deriving DecidableEq

/-- Terminal-status test `status in {"completed", "failed", "not_found"}`
from the source. -/
def isTerminal (status : Option String) : Bool :=
  status == some "completed" || status == some "failed" ||
    status == some "not_found"

/-- Zero padding to three digits, modelling the Python format spec 03d
used for chunk file names. -/
def pad3 (n : Nat) : String :=
  let s := toString n
  if s.length < 3 then String.mk (List.replicate (3 - s.length) '0') ++ s else s

/-! ## Embedded operations of demo/api_demo.py -/

/-- Embedding of decode_payload_to_file: reads the base64_wav key (a
KeyError if absent), base64-decodes it (binascii.Error if invalid),
creates the parent directory and writes the bytes.  Returns the emitted
filesystem events and the destination. -/
def decode_payload_to_file (payload : Payload) (destination : FsPath) :
    Except PyError (List Event × FsPath) :=
  match payload.base64_wav with
  | none => .error (.keyError "base64_wav")
  | some s =>
    match b64decode s with
    | none => .error .binasciiError
    | some audio_bytes =>
      .ok ([.mkdir destination.dropLast, .write destination audio_bytes],
        destination)

/-- Embedding of one iteration of the `for update in updates` body in
run_streaming_session: skip empty payloads, decode and write chunk or
final artifacts, and reproduce the KeyError raised by the progress print
when a chunk payload lacks num_samples.  Returns the emitted events and
either the new chunk index or the exception. -/
def processUpdate (chunkDir finalPath : FsPath) (ci : Nat) (u : Update) :
    List Event × Except PyError Nat :=
  match u.payload with
  | none => ([], .ok ci)
  | some p =>
    if p.isEmpty then ([], .ok ci)
    else if u.type = some "chunk" then
      match decode_payload_to_file p
          (chunkDir ++ ["chunk_" ++ pad3 (ci + 1) ++ ".wav"]) with
      | .error e => ([], .error e)
      | .ok (evs, _) =>
        match p.num_samples with
        | none => (evs, .error (.keyError "num_samples"))
        | some _ => (evs, .ok (ci + 1))
    else if u.type = some "final" then
      match decode_payload_to_file p finalPath with
      | .error e => ([], .error e)
      | .ok (evs, _) => (evs, .ok ci)
    else ([], .ok ci)

/-- Embedding of the whole `for update in updates` loop: processes
updates in response order, stopping at the first exception. -/
def processUpdates (chunkDir finalPath : FsPath) :
    Nat → List Update → List Event × Except PyError Nat
  | ci, [] => ([], .ok ci)
  | ci, u :: us =>
    match processUpdate chunkDir finalPath ci u with
    | (evs, .error e) => (evs, .error e)
    | (evs, .ok ci2) =>
      (evs ++ (processUpdates chunkDir finalPath ci2 us).1,
        (processUpdates chunkDir finalPath ci2 us).2)

/-- Embedding of the `while True` poll loop of run_streaming_session,
driven by a finite script of poll responses.  Each iteration polls,
remembers the log via `response.get("log", last_log)`, processes the
updates, exits on a terminal status (issuing the stop call exactly when
the status is not completed), and otherwise sleeps for the poll interval
exactly when the updates list was empty. -/
def runSession (outDir : FsPath) (pollInterval : Rat) :
    LoopState → List PollResponse → RunResult
  | st, [] => ⟨[], st, .exhausted⟩
  | st, r :: rs =>
    let lastLog2 := r.log.getD st.lastLog
    match processUpdates (outDir ++ ["stream_chunks"])
        (outDir ++ ["final_stream.wav"]) st.chunkIndex r.updates with
    | (evs, .error e) => ⟨.poll :: evs, ⟨st.chunkIndex, lastLog2⟩, .crashed e⟩
    | (evs, .ok ci2) =>
      if isTerminal r.status then
        ⟨.poll :: evs ++
            (if r.status = some "completed" then [] else [.stopCall]),
          ⟨ci2, lastLog2⟩, .terminal r.status⟩
      else
        let rest := runSession outDir pollInterval ⟨ci2, lastLog2⟩ rs
        ⟨.poll :: evs ++
            (if r.updates.isEmpty then [.sleep pollInterval] else []) ++
            rest.events,
          rest.state, rest.outcome⟩

/-- Embedding of run_streaming_session: the stream_start call followed by
the poll loop from a fresh state (chunk index 0, empty log). -/
def run_streaming_session (outDir : FsPath) (pollInterval : Rat)
    (script : List PollResponse) : RunResult :=
  let res := runSession outDir pollInterval ⟨0, ""⟩ script
  ⟨.startCall :: res.events, res.state, res.outcome⟩

/-- Metadata dictionary assembled by run_full_generation. -/
structure FullMetadata where
  sample_rate : Int
  num_samples : Int
  file_path : FsPath
  byte_length : Nat
deriving DecidableEq

/-- Value returned to the client by the full-generation API: either a
payload dictionary or some non-dictionary value. -/
inductive APIPayload where
  | dict (p : Payload)
  | nonDict
deriving DecidableEq

/-- Embedding of run_full_generation: checks that the response is a
dictionary containing base64_wav (otherwise the ValueError with the
unexpected-payload message), decodes the audio, creates the output
directory and writes full_generation.wav, returning the audio bytes,
metadata and log. -/
def run_full_generation (outDir : FsPath) (payload : APIPayload)
    (generation_log : String) :
    List Event × Except PyError (Bytes × FullMetadata × String) :=
  match payload with
  | .nonDict =>
    ([], .error (.valueError
      "Full-generation API returned an unexpected payload format."))
  | .dict p =>
    match p.base64_wav with
    | none =>
      ([], .error (.valueError
        "Full-generation API returned an unexpected payload format."))
    | some s =>
      match b64decode s with
      | none => ([], .error .binasciiError)
      | some audio_bytes =>
        let destination := outDir ++ ["full_generation.wav"]
        ([.mkdir outDir, .write destination audio_bytes],
          .ok (audio_bytes,
            ⟨p.sample_rate.getD 0, p.num_samples.getD 0, destination,
              audio_bytes.length⟩,
            generation_log))

/-! ## Derived notions used by the claims -/

/-- Events produced by update processing: directory creation and file
writes only. -/
def isFileEvent : Event → Bool
  | .mkdir _ => true
  | .write _ _ => true
  | _ => false

/-- Poll-call test on events. -/
def isPoll : Event → Bool
  | .poll => true
  | _ => false

/-- Paths of files written directly under the given chunk directory, in
trace order. -/
def chunkFileWrites (chunkDir : FsPath) (evs : List Event) : List FsPath :=
  evs.filterMap fun e =>
    match e with
    | .write p _ => if p.dropLast = chunkDir then some p else none
    | _ => none

/-- A chunk update that is actually processed: non-empty payload and type
chunk. -/
def isProcessedChunk (u : Update) : Bool :=
  !payloadEmpty u && u.type == some "chunk"

/-- Number of chunk updates with non-empty payload in a list of updates. -/
def countChunks (us : List Update) : Nat :=
  (us.filter isProcessedChunk).length

/-- Responses actually consumed by the poll loop: everything up to and
including the first terminal response. -/
def processedResponses : List PollResponse → List PollResponse
  | [] => []
  | r :: rs => if isTerminal r.status then [r] else r :: processedResponses rs

/-- Total number of processed chunk updates over a script. -/
def totalChunks (rs : List PollResponse) : Nat :=
  ((processedResponses rs).map (fun r => countChunks r.updates)).sum

/-- Crash test on outcomes. -/
def Outcome.isCrash : Outcome → Bool
  | .crashed _ => true
  | _ => false

/-- Presence of the transport-encoded audio field in a full-generation
response. -/
def hasAudioField : APIPayload → Bool
  | .dict p => p.base64_wav.isSome
  | .nonDict => false

/-! ## Supporting lemmas -/

theorem dropLast_snoc (l : FsPath) (a : String) : (l ++ [a]).dropLast = l := by
  simp

theorem append_singleton_ne_self (l : FsPath) (a : String) : l ≠ l ++ [a] := by
  intro h
  have := congrArg List.length h
  simp at this

theorem chunkFileWrites_append (cd : FsPath) (a b : List Event) :
    chunkFileWrites cd (a ++ b)
      = chunkFileWrites cd a ++ chunkFileWrites cd b := by
  simp [chunkFileWrites]

theorem decode_payload_to_file_ok (p : Payload) (d : FsPath)
    (devs : List Event) (dd : FsPath)
    (h : decode_payload_to_file p d = .ok (devs, dd)) :
    ∃ bs, devs = [.mkdir d.dropLast, .write d bs] ∧ dd = d := by
  unfold decode_payload_to_file at h
  split at h
  · simp at h
  · split at h
    · simp at h
    · simp only [Except.ok.injEq, Prod.mk.injEq] at h
      exact ⟨_, h.1.symm, h.2.symm⟩

theorem processUpdate_skip (cd fp : FsPath) (ci : Nat) (u : Update)
    (h : payloadEmpty u = true) : processUpdate cd fp ci u = ([], .ok ci) := by
  rcases hp : u.payload with _ | p
  · simp [processUpdate, hp]
  · have h2 : p.isEmpty = true := by
      unfold payloadEmpty at h
      rw [hp] at h
      simpa using h
    simp [processUpdate, hp, h2]

theorem processUpdate_other (cd fp : FsPath) (ci : Nat) (u : Update)
    (p : Payload) (hp : u.payload = some p) (hne : p.isEmpty = false)
    (hc : u.type ≠ some "chunk") (hf : u.type ≠ some "final") :
    processUpdate cd fp ci u = ([], .ok ci) := by
  simp [processUpdate, hp, hne, hc, hf]

theorem isFileEvent_decode_events (d : FsPath) (bs : Bytes) :
    ∀ e ∈ [Event.mkdir d.dropLast, Event.write d bs], isFileEvent e = true := by
  intro e he
  simp only [List.mem_cons, List.not_mem_nil, or_false] at he
  rcases he with rfl | rfl <;> rfl

theorem processUpdate_clean (cd fp : FsPath) (ci : Nat) (u : Update) :
    ∀ e ∈ (processUpdate cd fp ci u).1, isFileEvent e = true := by
  intro e he
  unfold processUpdate at he
  rcases hp : u.payload with _ | p <;> rw [hp] at he
  · simp at he
  · by_cases hpe : p.isEmpty <;> simp only [hpe, if_true, if_false, reduceIte] at he
    · simp at he
    · by_cases hc : u.type = some "chunk" <;> simp only [hc, reduceIte] at he
      · rcases hd : decode_payload_to_file p
            (cd ++ ["chunk_" ++ pad3 (ci + 1) ++ ".wav"]) with e2 | ⟨devs, dd⟩ <;>
          rw [hd] at he
        · simp at he
        · obtain ⟨bs, hdevs, -⟩ := decode_payload_to_file_ok _ _ _ _ hd
          subst hdevs
          rcases hnum : p.num_samples with _ | n <;> simp only [hnum] at he <;>
            exact isFileEvent_decode_events _ bs e he
      · by_cases hfin : u.type = some "final" <;> simp only [hfin, reduceIte] at he
        · rcases hd : decode_payload_to_file p fp with e2 | ⟨devs, dd⟩ <;>
            rw [hd] at he
          · simp at he
          · obtain ⟨bs, hdevs, -⟩ := decode_payload_to_file_ok _ _ _ _ hd
            subst hdevs
            exact isFileEvent_decode_events _ bs e he
        · simp at he

theorem processUpdate_ok_spec (cd fp : FsPath) (hfp : fp.dropLast ≠ cd)
    (ci : Nat) (u : Update) (evs : List Event) (ci2 : Nat)
    (h : processUpdate cd fp ci u = (evs, .ok ci2)) :
    (isProcessedChunk u = true →
      ci2 = ci + 1 ∧
        chunkFileWrites cd evs = [cd ++ ["chunk_" ++ pad3 (ci + 1) ++ ".wav"]]) ∧
    (isProcessedChunk u = false →
      ci2 = ci ∧ chunkFileWrites cd evs = []) := by
  unfold processUpdate at h
  rcases hp : u.payload with _ | p <;> rw [hp] at h
  · have hchunk : isProcessedChunk u = false := by
      simp [isProcessedChunk, payloadEmpty, hp]
    simp only [Bool.false_eq_true, Bool.true_eq_false, reduceIte, if_false, if_true, Prod.mk.injEq, Except.ok.injEq] at h
    simp [hchunk, ← h.1, ← h.2, chunkFileWrites]
  · by_cases hpe : p.isEmpty <;> simp only [hpe, reduceIte] at h
    · have hchunk : isProcessedChunk u = false := by
        simp [isProcessedChunk, payloadEmpty, hp, hpe]
      simp only [Bool.false_eq_true, Bool.true_eq_false, reduceIte, if_false, if_true, Prod.mk.injEq, Except.ok.injEq] at h
      simp [hchunk, ← h.1, ← h.2, chunkFileWrites]
    · by_cases hc : u.type = some "chunk" <;> simp only [hc, reduceIte] at h
      · have hchunk : isProcessedChunk u = true := by
          simp [isProcessedChunk, payloadEmpty, hp, hpe, hc]
        rcases hd : decode_payload_to_file p
            (cd ++ ["chunk_" ++ pad3 (ci + 1) ++ ".wav"]) with e2 | ⟨devs, dd⟩ <;>
          rw [hd] at h
        · simp at h
        · obtain ⟨bs, hdevs, -⟩ := decode_payload_to_file_ok _ _ _ _ hd
          rcases hnum : p.num_samples with _ | n <;> simp only [hnum] at h
          · simp at h
          · simp only [Bool.false_eq_true, Bool.true_eq_false, reduceIte, if_false, if_true, Prod.mk.injEq, Except.ok.injEq] at h
            subst hdevs
            refine ⟨fun _ => ⟨h.2.symm, ?_⟩, fun hcc => by rw [hchunk] at hcc; cases hcc⟩
            rw [← h.1]
            simp [chunkFileWrites, dropLast_snoc]
      · by_cases hfin : u.type = some "final" <;> simp only [hfin, reduceIte] at h
        · have hchunk : isProcessedChunk u = false := by
            simp [isProcessedChunk, hc]
          rcases hd : decode_payload_to_file p fp with e2 | ⟨devs, dd⟩ <;>
            rw [hd] at h
          · simp at h
          · obtain ⟨bs, hdevs, -⟩ := decode_payload_to_file_ok _ _ _ _ hd
            simp only [Bool.false_eq_true, Bool.true_eq_false, reduceIte, if_false, if_true, Prod.mk.injEq, Except.ok.injEq] at h
            subst hdevs
            refine ⟨fun hcc => (by rw [hchunk] at hcc; cases hcc),
              fun _ => ⟨h.2.symm, ?_⟩⟩
            rw [← h.1]
            simp [chunkFileWrites, hfp]
        · have hchunk : isProcessedChunk u = false := by
            simp [isProcessedChunk, hc]
          simp only [Bool.false_eq_true, Bool.true_eq_false, reduceIte, if_false, if_true, Prod.mk.injEq, Except.ok.injEq] at h
          simp [hchunk, ← h.1, ← h.2, chunkFileWrites]

theorem processUpdates_clean (cd fp : FsPath) :
    ∀ (us : List Update) (ci : Nat),
      ∀ e ∈ (processUpdates cd fp ci us).1, isFileEvent e = true := by
  intro us
  induction us with
  | nil => intro ci e he; simp [processUpdates] at he
  | cons u us ih =>
    intro ci e he
    simp only [processUpdates] at he
    rcases hu : processUpdate cd fp ci u with ⟨evs, r⟩
    rw [hu] at he
    have hevs : (processUpdate cd fp ci u).1 = evs := by rw [hu]
    rcases r with e2 | ci2
    · exact processUpdate_clean cd fp ci u e (by rw [hevs]; exact he)
    · simp only [List.mem_append] at he
      rcases he with he | he
      · exact processUpdate_clean cd fp ci u e (by rw [hevs]; exact he)
      · exact ih ci2 e he

theorem processUpdates_ok_spec (cd fp : FsPath) (hfp : fp.dropLast ≠ cd) :
    ∀ (us : List Update) (ci : Nat) (evs : List Event) (ci2 : Nat),
      processUpdates cd fp ci us = (evs, .ok ci2) →
      ci2 = ci + countChunks us ∧
        chunkFileWrites cd evs
          = (List.range' (ci + 1) (countChunks us)).map
              (fun i => cd ++ ["chunk_" ++ pad3 i ++ ".wav"]) := by
  intro us
  induction us with
  | nil =>
    intro ci evs ci2 h
    simp only [processUpdates, Prod.mk.injEq, Except.ok.injEq] at h
    simp [← h.1, ← h.2, countChunks, chunkFileWrites]
  | cons u us ih =>
    intro ci evs ci2 h
    simp only [processUpdates] at h
    rcases hu : processUpdate cd fp ci u with ⟨evs1, r⟩
    rw [hu] at h
    rcases r with e2 | ci1
    · simp at h
    · replace h : (evs1 ++ (processUpdates cd fp ci1 us).1,
          (processUpdates cd fp ci1 us).2) = (evs, Except.ok ci2) := h
      rcases hrest : processUpdates cd fp ci1 us with ⟨evs2, r2⟩
      rw [hrest] at h
      simp only [Prod.mk.injEq] at h
      rcases r2 with e3 | ci3
      · exact absurd h.2 (by simp)
      · obtain ⟨hevs, hci⟩ := h
        replace hci : ci3 = ci2 := by simpa using hci
        obtain ⟨hok1, hok2⟩ := processUpdate_ok_spec cd fp hfp ci u evs1 ci1 hu
        obtain ⟨ih1, ih2⟩ := ih ci1 evs2 ci3 hrest
        by_cases hchunk : isProcessedChunk u
        · obtain ⟨hci1, hw1⟩ := hok1 hchunk
          have hcount : countChunks (u :: us) = countChunks us + 1 := by
            simp [countChunks, List.filter_cons, hchunk]
          rw [hcount]
          constructor
          · omega
          · rw [← hevs, chunkFileWrites_append, hw1, ih2, hci1]
            have hr : List.range' (ci + 1) (countChunks us + 1)
                = (ci + 1) :: List.range' (ci + 1 + 1) (countChunks us) :=
              List.range'_succ (ci + 1) (countChunks us) 1
            rw [hr]
            simp
        · obtain ⟨hci1, hw1⟩ := hok2 (by simpa using hchunk)
          have hcount : countChunks (u :: us) = countChunks us := by
            simp [countChunks, List.filter_cons, hchunk]
          rw [hcount]
          constructor
          · omega
          · rw [← hevs, chunkFileWrites_append, hw1, ih2, hci1]
            simp

theorem runSession_nil (outDir : FsPath) (ι : Rat) (st : LoopState) :
    runSession outDir ι st [] = ⟨[], st, .exhausted⟩ := rfl

theorem runSession_cons_error (outDir : FsPath) (ι : Rat) (st : LoopState)
    (r : PollResponse) (rs : List PollResponse) (evs : List Event) (e : PyError)
    (h : processUpdates (outDir ++ ["stream_chunks"])
        (outDir ++ ["final_stream.wav"]) st.chunkIndex r.updates
      = (evs, .error e)) :
    runSession outDir ι st (r :: rs)
      = ⟨.poll :: evs, ⟨st.chunkIndex, r.log.getD st.lastLog⟩, .crashed e⟩ := by
  simp only [runSession, h]

theorem runSession_cons_terminal (outDir : FsPath) (ι : Rat) (st : LoopState)
    (r : PollResponse) (rs : List PollResponse) (evs : List Event) (ci2 : Nat)
    (hterm : isTerminal r.status = true)
    (h : processUpdates (outDir ++ ["stream_chunks"])
        (outDir ++ ["final_stream.wav"]) st.chunkIndex r.updates
      = (evs, .ok ci2)) :
    runSession outDir ι st (r :: rs)
      = ⟨.poll :: evs ++
            (if r.status = some "completed" then [] else [.stopCall]),
          ⟨ci2, r.log.getD st.lastLog⟩, .terminal r.status⟩ := by
  simp only [runSession, h, hterm, if_true]

theorem runSession_cons_go (outDir : FsPath) (ι : Rat) (st : LoopState)
    (r : PollResponse) (rs : List PollResponse) (evs : List Event) (ci2 : Nat)
    (hterm : isTerminal r.status = false)
    (h : processUpdates (outDir ++ ["stream_chunks"])
        (outDir ++ ["final_stream.wav"]) st.chunkIndex r.updates
      = (evs, .ok ci2)) :
    runSession outDir ι st (r :: rs)
      = ⟨.poll :: evs ++
            (if r.updates.isEmpty then [.sleep ι] else []) ++
            (runSession outDir ι ⟨ci2, r.log.getD st.lastLog⟩ rs).events,
          (runSession outDir ι ⟨ci2, r.log.getD st.lastLog⟩ rs).state,
          (runSession outDir ι ⟨ci2, r.log.getD st.lastLog⟩ rs).outcome⟩ := by
  simp only [runSession, h, hterm, Bool.false_eq_true, if_false, reduceIte]

theorem clean_no_stop (evs : List Event)
    (h : ∀ e ∈ evs, isFileEvent e = true) : Event.stopCall ∉ evs := by
  intro hm
  have := h _ hm
  simp [isFileEvent] at this

theorem clean_no_sleep (evs : List Event)
    (h : ∀ e ∈ evs, isFileEvent e = true) : ∀ d, Event.sleep d ∉ evs := by
  intro d hm
  have := h _ hm
  simp [isFileEvent] at this

theorem clean_countP_poll (evs : List Event)
    (h : ∀ e ∈ evs, isFileEvent e = true) : evs.countP isPoll = 0 := by
  refine List.countP_eq_zero.mpr fun e he => ?_
  have := h e he
  cases e <;> simp_all [isFileEvent, isPoll]

theorem runSession_cons_error_events (outDir : FsPath) (ι : Rat)
    (st : LoopState) (r : PollResponse) (rs : List PollResponse)
    (evs : List Event) (e : PyError)
    (h : processUpdates (outDir ++ ["stream_chunks"])
        (outDir ++ ["final_stream.wav"]) st.chunkIndex r.updates
      = (evs, .error e)) :
    (runSession outDir ι st (r :: rs)).events = Event.poll :: evs := by
  rw [runSession_cons_error outDir ι st r rs evs e h]

theorem runSession_cons_error_outcome (outDir : FsPath) (ι : Rat)
    (st : LoopState) (r : PollResponse) (rs : List PollResponse)
    (evs : List Event) (e : PyError)
    (h : processUpdates (outDir ++ ["stream_chunks"])
        (outDir ++ ["final_stream.wav"]) st.chunkIndex r.updates
      = (evs, .error e)) :
    (runSession outDir ι st (r :: rs)).outcome = .crashed e := by
  rw [runSession_cons_error outDir ι st r rs evs e h]

theorem runSession_cons_terminal_events (outDir : FsPath) (ι : Rat)
    (st : LoopState) (r : PollResponse) (rs : List PollResponse)
    (evs : List Event) (ci2 : Nat)
    (hterm : isTerminal r.status = true)
    (h : processUpdates (outDir ++ ["stream_chunks"])
        (outDir ++ ["final_stream.wav"]) st.chunkIndex r.updates
      = (evs, .ok ci2)) :
    (runSession outDir ι st (r :: rs)).events
      = Event.poll :: evs ++
          (if r.status = some "completed" then [] else [Event.stopCall]) := by
  rw [runSession_cons_terminal outDir ι st r rs evs ci2 hterm h]

theorem runSession_cons_terminal_outcome (outDir : FsPath) (ι : Rat)
    (st : LoopState) (r : PollResponse) (rs : List PollResponse)
    (evs : List Event) (ci2 : Nat)
    (hterm : isTerminal r.status = true)
    (h : processUpdates (outDir ++ ["stream_chunks"])
        (outDir ++ ["final_stream.wav"]) st.chunkIndex r.updates
      = (evs, .ok ci2)) :
    (runSession outDir ι st (r :: rs)).outcome = .terminal r.status := by
  rw [runSession_cons_terminal outDir ι st r rs evs ci2 hterm h]

theorem runSession_cons_go_events (outDir : FsPath) (ι : Rat)
    (st : LoopState) (r : PollResponse) (rs : List PollResponse)
    (evs : List Event) (ci2 : Nat)
    (hterm : isTerminal r.status = false)
    (h : processUpdates (outDir ++ ["stream_chunks"])
        (outDir ++ ["final_stream.wav"]) st.chunkIndex r.updates
      = (evs, .ok ci2)) :
    (runSession outDir ι st (r :: rs)).events
      = Event.poll :: evs ++
          (if r.updates.isEmpty then [Event.sleep ι] else []) ++
          (runSession outDir ι ⟨ci2, r.log.getD st.lastLog⟩ rs).events := by
  rw [runSession_cons_go outDir ι st r rs evs ci2 hterm h]

theorem runSession_cons_go_state (outDir : FsPath) (ι : Rat)
    (st : LoopState) (r : PollResponse) (rs : List PollResponse)
    (evs : List Event) (ci2 : Nat)
    (hterm : isTerminal r.status = false)
    (h : processUpdates (outDir ++ ["stream_chunks"])
        (outDir ++ ["final_stream.wav"]) st.chunkIndex r.updates
      = (evs, .ok ci2)) :
    (runSession outDir ι st (r :: rs)).state
      = (runSession outDir ι ⟨ci2, r.log.getD st.lastLog⟩ rs).state := by
  rw [runSession_cons_go outDir ι st r rs evs ci2 hterm h]

theorem runSession_cons_go_outcome (outDir : FsPath) (ι : Rat)
    (st : LoopState) (r : PollResponse) (rs : List PollResponse)
    (evs : List Event) (ci2 : Nat)
    (hterm : isTerminal r.status = false)
    (h : processUpdates (outDir ++ ["stream_chunks"])
        (outDir ++ ["final_stream.wav"]) st.chunkIndex r.updates
      = (evs, .ok ci2)) :
    (runSession outDir ι st (r :: rs)).outcome
      = (runSession outDir ι ⟨ci2, r.log.getD st.lastLog⟩ rs).outcome := by
  rw [runSession_cons_go outDir ι st r rs evs ci2 hterm h]

theorem chunkFileWrites_poll_cons (cd : FsPath) (evs : List Event) :
    chunkFileWrites cd (Event.poll :: evs) = chunkFileWrites cd evs := by
  simp [chunkFileWrites]

theorem runSession_stop_iff (outDir : FsPath) (ι : Rat) :
    ∀ (rs : List PollResponse) (st : LoopState),
      (Event.stopCall ∈ (runSession outDir ι st rs).events ↔
        ∃ s, (runSession outDir ι st rs).outcome = .terminal s ∧
          s ≠ some "completed") := by
  intro rs
  induction rs with
  | nil => intro st; simp [runSession_nil]
  | cons r rs ih =>
    intro st
    rcases hpu : processUpdates (outDir ++ ["stream_chunks"])
        (outDir ++ ["final_stream.wav"]) st.chunkIndex r.updates with ⟨evs, rr⟩
    have hclean := processUpdates_clean (outDir ++ ["stream_chunks"])
      (outDir ++ ["final_stream.wav"]) r.updates st.chunkIndex
    rw [hpu] at hclean
    have hstop : Event.stopCall ∉ evs := clean_no_stop evs hclean
    rcases rr with e | ci2
    · rw [runSession_cons_error_events outDir ι st r rs evs e hpu,
        runSession_cons_error_outcome outDir ι st r rs evs e hpu]
      simp [hstop]
    · by_cases hterm : isTerminal r.status
      · rw [runSession_cons_terminal_events outDir ι st r rs evs ci2 hterm hpu,
          runSession_cons_terminal_outcome outDir ι st r rs evs ci2 hterm hpu]
        by_cases hc : r.status = some "completed"
        · simp [hc, hstop]
        · simp [hc, hstop]
      · simp only [Bool.not_eq_true] at hterm
        rw [runSession_cons_go_events outDir ι st r rs evs ci2 hterm hpu,
          runSession_cons_go_outcome outDir ι st r rs evs ci2 hterm hpu]
        have hrec := ih ⟨ci2, r.log.getD st.lastLog⟩
        by_cases hemp : r.updates.isEmpty
        · simp [hemp, hstop, hrec]
        · simp [hemp, hstop, hrec]

theorem runSession_terminal_isTerminal (outDir : FsPath) (ι : Rat) :
    ∀ (rs : List PollResponse) (st : LoopState) (s : Option String),
      (runSession outDir ι st rs).outcome = .terminal s →
      isTerminal s = true := by
  intro rs
  induction rs with
  | nil => intro st s h; simp [runSession_nil] at h
  | cons r rs ih =>
    intro st s h
    rcases hpu : processUpdates (outDir ++ ["stream_chunks"])
        (outDir ++ ["final_stream.wav"]) st.chunkIndex r.updates with ⟨evs, rr⟩
    rcases rr with e | ci2
    · rw [runSession_cons_error_outcome outDir ι st r rs evs e hpu] at h
      simp at h
    · by_cases hterm : isTerminal r.status
      · rw [runSession_cons_terminal_outcome outDir ι st r rs evs ci2
          hterm hpu] at h
        simp only [Outcome.terminal.injEq] at h
        rw [← h]
        exact hterm
      · simp only [Bool.not_eq_true] at hterm
        rw [runSession_cons_go_outcome outDir ι st r rs evs ci2 hterm hpu] at h
        exact ih ⟨ci2, r.log.getD st.lastLog⟩ s h

theorem runSession_chunkWrites (outDir : FsPath) (ι : Rat) :
    ∀ (rs : List PollResponse) (st : LoopState),
      (runSession outDir ι st rs).outcome.isCrash = false →
      chunkFileWrites (outDir ++ ["stream_chunks"])
          (runSession outDir ι st rs).events
        = (List.range' (st.chunkIndex + 1) (totalChunks rs)).map
            (fun i => (outDir ++ ["stream_chunks"])
              ++ ["chunk_" ++ pad3 i ++ ".wav"]) := by
  intro rs
  induction rs with
  | nil =>
    intro st _
    simp [runSession_nil, totalChunks, processedResponses, chunkFileWrites]
  | cons r rs ih =>
    intro st hcrash
    have hfp : (outDir ++ ["final_stream.wav"]).dropLast
        ≠ outDir ++ ["stream_chunks"] := by
      rw [dropLast_snoc]
      exact append_singleton_ne_self outDir "stream_chunks"
    rcases hpu : processUpdates (outDir ++ ["stream_chunks"])
        (outDir ++ ["final_stream.wav"]) st.chunkIndex r.updates with ⟨evs, rr⟩
    rcases rr with e | ci2
    · rw [runSession_cons_error_outcome outDir ι st r rs evs e hpu] at hcrash
      simp [Outcome.isCrash] at hcrash
    · obtain ⟨hci2, hwrites⟩ := processUpdates_ok_spec
        (outDir ++ ["stream_chunks"]) (outDir ++ ["final_stream.wav"]) hfp
        r.updates st.chunkIndex evs ci2 hpu
      by_cases hterm : isTerminal r.status
      · rw [runSession_cons_terminal_events outDir ι st r rs evs ci2
          hterm hpu]
        have htot : totalChunks (r :: rs) = countChunks r.updates := by
          simp [totalChunks, processedResponses, hterm]
        have hstopBlock : chunkFileWrites (outDir ++ ["stream_chunks"])
            (if r.status = some "completed" then [] else [Event.stopCall])
            = [] := by
          by_cases hc : r.status = some "completed" <;>
            simp [hc, chunkFileWrites]
        rw [htot, chunkFileWrites_append, chunkFileWrites_poll_cons,
          hwrites, hstopBlock]
        simp
      · simp only [Bool.not_eq_true] at hterm
        rw [runSession_cons_go_events outDir ι st r rs evs ci2 hterm hpu]
        rw [runSession_cons_go_outcome outDir ι st r rs evs ci2 hterm hpu]
          at hcrash
        have hrest := ih ⟨ci2, r.log.getD st.lastLog⟩ hcrash
        have htot : totalChunks (r :: rs)
            = countChunks r.updates + totalChunks rs := by
          simp [totalChunks, processedResponses, hterm]
        have hsleepBlock : chunkFileWrites (outDir ++ ["stream_chunks"])
            (if r.updates.isEmpty then [Event.sleep ι] else []) = [] := by
          by_cases hemp : r.updates.isEmpty <;> simp [hemp, chunkFileWrites]
        rw [htot, chunkFileWrites_append, chunkFileWrites_append,
          chunkFileWrites_poll_cons, hwrites, hsleepBlock, hrest]
        simp only [List.append_nil]
        have hstart : ci2 + 1 = st.chunkIndex + 1 + countChunks r.updates := by
          omega
        rw [hstart, ← List.map_append, List.range'_append_1,
          Nat.add_comm (totalChunks rs) (countChunks r.updates)]

theorem run_streaming_session_events (outDir : FsPath) (ι : Rat)
    (rs : List PollResponse) :
    (run_streaming_session outDir ι rs).events
      = Event.startCall :: (runSession outDir ι ⟨0, ""⟩ rs).events := rfl

theorem run_streaming_session_state (outDir : FsPath) (ι : Rat)
    (rs : List PollResponse) :
    (run_streaming_session outDir ι rs).state
      = (runSession outDir ι ⟨0, ""⟩ rs).state := rfl

theorem run_streaming_session_outcome (outDir : FsPath) (ι : Rat)
    (rs : List PollResponse) :
    (run_streaming_session outDir ι rs).outcome
      = (runSession outDir ι ⟨0, ""⟩ rs).outcome := rfl

theorem noop_insert_aux (cd fp : FsPath) (u : Update)
    (hstep : ∀ ci, processUpdate cd fp ci u = ([], .ok ci)) :
    ∀ (us1 : List Update) (ci : Nat) (us2 : List Update),
      processUpdates cd fp ci (us1 ++ u :: us2)
        = processUpdates cd fp ci (us1 ++ us2) := by
  intro us1
  induction us1 with
  | nil =>
    intro ci us2
    simp only [List.nil_append, processUpdates, hstep, Prod.mk.eta]
  | cons u1 us1 ih =>
    intro ci us2
    simp only [List.cons_append, processUpdates]
    rcases hu1 : processUpdate cd fp ci u1 with ⟨evs1, r1⟩
    rcases r1 with e | ci1
    · rfl
    · change (evs1 ++ (processUpdates cd fp ci1 (us1 ++ u :: us2)).1,
          (processUpdates cd fp ci1 (us1 ++ u :: us2)).2)
        = (evs1 ++ (processUpdates cd fp ci1 (us1 ++ us2)).1,
          (processUpdates cd fp ci1 (us1 ++ us2)).2)
      rw [ih ci1 us2]

theorem runSession_events_cons_shape (outDir : FsPath) (ι : Rat)
    (st : LoopState) (r : PollResponse) (rs : List PollResponse) :
    ∃ t, (runSession outDir ι st (r :: rs)).events = Event.poll :: t := by
  rcases hpu : processUpdates (outDir ++ ["stream_chunks"])
      (outDir ++ ["final_stream.wav"]) st.chunkIndex r.updates with ⟨evs, rr⟩
  rcases rr with e | ci2
  · exact ⟨evs, runSession_cons_error_events outDir ι st r rs evs e hpu⟩
  · by_cases ht : isTerminal r.status
    · refine ⟨evs ++
        (if r.status = some "completed" then [] else [Event.stopCall]), ?_⟩
      rw [runSession_cons_terminal_events outDir ι st r rs evs ci2 ht hpu,
        List.cons_append]
    · simp only [Bool.not_eq_true] at ht
      refine ⟨(evs ++ (if r.updates.isEmpty then [Event.sleep ι] else [])) ++
        (runSession outDir ι ⟨ci2, r.log.getD st.lastLog⟩ rs).events, ?_⟩
      rw [runSession_cons_go_events outDir ι st r rs evs ci2 ht hpu,
        List.cons_append, List.cons_append]

/-! ## Claims -/

/-- C1: for every sequence of poll responses processed without a crash,
the chunk files written have 1-based, contiguous, strictly increasing
sequence numbers in arrival order, their count equals the number of chunk
updates with non-empty payload actually processed, and each path is
chunk_NNN.wav (zero padded to three digits) under the stream_chunks
subdirectory of the output directory. -/
theorem claim_chunk_files_sequential (outDir : FsPath) (ι : Rat)
    (rs : List PollResponse)
    (h : (run_streaming_session outDir ι rs).outcome.isCrash = false) :
    chunkFileWrites (outDir ++ ["stream_chunks"])
        (run_streaming_session outDir ι rs).events
      = (List.range' 1 (totalChunks rs)).map
          (fun i => outDir ++ ["stream_chunks", "chunk_" ++ pad3 i ++ ".wav"]) := by
  rw [run_streaming_session_outcome] at h
  rw [run_streaming_session_events]
  have hsc : chunkFileWrites (outDir ++ ["stream_chunks"])
      (Event.startCall :: (runSession outDir ι ⟨0, ""⟩ rs).events)
      = chunkFileWrites (outDir ++ ["stream_chunks"])
          (runSession outDir ι ⟨0, ""⟩ rs).events := by
    simp [chunkFileWrites]
  rw [hsc, runSession_chunkWrites outDir ι rs ⟨0, ""⟩ h]
  simp [List.append_assoc]

theorem claim_chunk_files_sequential_witness :
    chunkFileWrites (["demo"] ++ ["stream_chunks"])
        (run_streaming_session ["demo"] 2
          [⟨some "running",
              [⟨some "chunk", some ⟨some "QUJD", none, some 3⟩⟩], none, none⟩,
           ⟨some "completed",
              [⟨some "final", some ⟨some "WFla", none, none⟩⟩], none, none⟩]).events
      = [["demo", "stream_chunks", "chunk_001.wav"]] := by
  rw [claim_chunk_files_sequential ["demo"] 2
    [⟨some "running",
        [⟨some "chunk", some ⟨some "QUJD", none, some 3⟩⟩], none, none⟩,
     ⟨some "completed",
        [⟨some "final", some ⟨some "WFla", none, none⟩⟩], none, none⟩]
    rfl]
  rfl

/-- C2: the stop call is issued if and only if the poll loop exits with a
terminal status other than completed; every exit status reported as
terminal is one of completed, failed, not_found. -/
theorem claim_stop_iff_not_completed (outDir : FsPath) (ι : Rat)
    (rs : List PollResponse) :
    (Event.stopCall ∈ (run_streaming_session outDir ι rs).events
      ↔ ∃ s, (run_streaming_session outDir ι rs).outcome = .terminal s ∧
          s ≠ some "completed")
    ∧ (∀ s, (run_streaming_session outDir ι rs).outcome = .terminal s →
        isTerminal s = true) := by
  constructor
  · rw [run_streaming_session_events, run_streaming_session_outcome]
    have h := runSession_stop_iff outDir ι rs ⟨0, ""⟩
    simpa using h
  · intro s h
    rw [run_streaming_session_outcome] at h
    exact runSession_terminal_isTerminal outDir ι rs ⟨0, ""⟩ s h

/-- C3: after a poll response with a non-terminal status, the loop sleeps
for exactly the configured poll interval before the next poll iff the
updates list was empty; update processing emits no sleep, and the
continuation begins immediately with the next poll call. -/
theorem claim_idle_sleep_policy (outDir : FsPath) (ι : Rat) (st : LoopState)
    (r : PollResponse) (rs : List PollResponse) (evs : List Event) (ci2 : Nat)
    (hterm : isTerminal r.status = false)
    (hpu : processUpdates (outDir ++ ["stream_chunks"])
        (outDir ++ ["final_stream.wav"]) st.chunkIndex r.updates
      = (evs, .ok ci2)) :
    (runSession outDir ι st (r :: rs)).events
      = Event.poll :: evs ++
          (if r.updates.isEmpty then [Event.sleep ι] else []) ++
          (runSession outDir ι ⟨ci2, r.log.getD st.lastLog⟩ rs).events
    ∧ (∀ d, Event.sleep d ∉ evs)
    ∧ (rs ≠ [] → ∃ t,
        (runSession outDir ι ⟨ci2, r.log.getD st.lastLog⟩ rs).events
          = Event.poll :: t) := by
  refine ⟨runSession_cons_go_events outDir ι st r rs evs ci2 hterm hpu,
    ?_, ?_⟩
  · have hclean := processUpdates_clean (outDir ++ ["stream_chunks"])
      (outDir ++ ["final_stream.wav"]) r.updates st.chunkIndex
    rw [hpu] at hclean
    exact clean_no_sleep evs hclean
  · intro hne
    rcases rs with _ | ⟨r2, rs2⟩
    · exact absurd rfl hne
    · exact runSession_events_cons_shape outDir ι _ r2 rs2

theorem claim_idle_sleep_policy_witness :
    (runSession ["demo"] 2 ⟨0, ""⟩ [⟨some "running", [], none, none⟩]).events
      = [Event.poll, Event.sleep 2] := by
  have h := (claim_idle_sleep_policy ["demo"] 2 ⟨0, ""⟩
    ⟨some "running", [], none, none⟩ [] [] 0 rfl rfl).1
  simpa [runSession_nil] using h

/-- C4: once a terminal-status response is observed, the loop result does
not depend on any later response, the trace contains exactly one poll
call, and the loop exits right after processing the updates of that
response (followed only by the conditional stop call). -/
theorem claim_terminal_stops_polling (outDir : FsPath) (ι : Rat)
    (st : LoopState) (r : PollResponse) (rs : List PollResponse)
    (h : isTerminal r.status = true) :
    runSession outDir ι st (r :: rs) = runSession outDir ι st [r]
    ∧ (runSession outDir ι st (r :: rs)).events.countP isPoll = 1
    ∧ (∀ evs ci2,
        processUpdates (outDir ++ ["stream_chunks"])
            (outDir ++ ["final_stream.wav"]) st.chunkIndex r.updates
          = (evs, .ok ci2) →
        (runSession outDir ι st (r :: rs)).events
          = Event.poll :: evs ++
              (if r.status = some "completed" then []
               else [Event.stopCall])) := by
  refine ⟨?_, ?_, ?_⟩
  · rcases hpu : processUpdates (outDir ++ ["stream_chunks"])
        (outDir ++ ["final_stream.wav"]) st.chunkIndex r.updates with ⟨evs, rr⟩
    rcases rr with e | ci2
    · rw [runSession_cons_error outDir ι st r rs evs e hpu,
        runSession_cons_error outDir ι st r [] evs e hpu]
    · rw [runSession_cons_terminal outDir ι st r rs evs ci2 h hpu,
        runSession_cons_terminal outDir ι st r [] evs ci2 h hpu]
  · rcases hpu : processUpdates (outDir ++ ["stream_chunks"])
        (outDir ++ ["final_stream.wav"]) st.chunkIndex r.updates with ⟨evs, rr⟩
    have hclean := processUpdates_clean (outDir ++ ["stream_chunks"])
      (outDir ++ ["final_stream.wav"]) r.updates st.chunkIndex
    rw [hpu] at hclean
    have hcp : evs.countP isPoll = 0 := clean_countP_poll evs hclean
    rcases rr with e | ci2
    · rw [runSession_cons_error_events outDir ι st r rs evs e hpu]
      simp [List.countP_cons, hcp, isPoll]
    · rw [runSession_cons_terminal_events outDir ι st r rs evs ci2 h hpu]
      by_cases hc : r.status = some "completed" <;>
        simp [hc, List.countP_append, List.countP_cons, hcp, isPoll]
  · intro evs ci2 hpu
    exact runSession_cons_terminal_events outDir ι st r rs evs ci2 h hpu

theorem claim_terminal_stops_polling_witness :
    runSession ["demo"] 2 ⟨0, ""⟩
        [⟨some "not_found", [], none, none⟩, ⟨some "running", [], none, none⟩]
      = runSession ["demo"] 2 ⟨0, ""⟩ [⟨some "not_found", [], none, none⟩] :=
  (claim_terminal_stops_polling ["demo"] 2 ⟨0, ""⟩
    ⟨some "not_found", [], none, none⟩
    [⟨some "running", [], none, none⟩] rfl).1

/-- C5 counterexample: a response that supplies an empty log value does
replace the remembered log, contradicting the claim that replacement
happens only for non-empty log values. -/
theorem claim_log_counterexample :
    (runSession [] 0 ⟨0, "hello"⟩
        [⟨some "completed", [], some "", none⟩]).state.lastLog = ""
    ∧ ("hello" : String) ≠ "" := by
  exact ⟨rfl, by decide⟩

/-- C5 amended: after a poll response the remembered log equals the log
field of the response whenever that field is present (even when its value
is empty), and keeps its previous value when the field is omitted. -/
theorem claim_log_replacement_rule (outDir : FsPath) (ι : Rat)
    (st : LoopState) (r : PollResponse) :
    ((runSession outDir ι st [r]).state).lastLog = r.log.getD st.lastLog := by
  rcases hpu : processUpdates (outDir ++ ["stream_chunks"])
      (outDir ++ ["final_stream.wav"]) st.chunkIndex r.updates with ⟨evs, rr⟩
  rcases rr with e | ci2
  · rw [runSession_cons_error outDir ι st r [] evs e hpu]
  · by_cases hterm : isTerminal r.status
    · rw [runSession_cons_terminal outDir ι st r [] evs ci2 hterm hpu]
    · simp only [Bool.not_eq_true] at hterm
      rw [runSession_cons_go_state outDir ι st r [] evs ci2 hterm hpu,
        runSession_nil]

/-- C6: an update whose payload is absent or empty is silently skipped,
emitting no events and keeping the chunk index, and removing it from the
updates list does not change the result of update processing. -/
theorem claim_empty_payload_skipped (cd fp : FsPath) (ci : Nat) (u : Update)
    (h : payloadEmpty u = true) :
    processUpdate cd fp ci u = ([], .ok ci)
    ∧ ∀ us1 us2, processUpdates cd fp ci (us1 ++ u :: us2)
        = processUpdates cd fp ci (us1 ++ us2) := by
  refine ⟨processUpdate_skip cd fp ci u h, fun us1 us2 => ?_⟩
  exact noop_insert_aux cd fp u
    (fun ci3 => processUpdate_skip cd fp ci3 u h) us1 ci us2

theorem claim_empty_payload_skipped_witness :
    processUpdate ["demo", "stream_chunks"] ["demo", "final_stream.wav"] 5
        ⟨some "chunk", none⟩
      = ([], .ok 5) :=
  (claim_empty_payload_skipped ["demo", "stream_chunks"]
    ["demo", "final_stream.wav"] 5 ⟨some "chunk", none⟩ rfl).1

/-- C7: a chunk update with a valid audio field but no num_samples field
makes processing raise KeyError after decoding and writing the chunk
file, so the run aborts instead of continuing as the claim states. -/
theorem claim_chunk_missing_num_samples_crash :
    processUpdate ["demo", "stream_chunks"] ["demo", "final_stream.wav"] 0
        ⟨some "chunk", some ⟨some "QUJD", none, none⟩⟩
      = ([Event.mkdir ["demo", "stream_chunks"],
          Event.write ["demo", "stream_chunks", "chunk_001.wav"] [65, 66, 67]],
         .error (.keyError "num_samples")) := by
  rfl

/-- C8 counterexample: a payload whose audio field is present but not
validly transport-encoded makes the full-generation call fail with a
decode error rather than complete, so presence of the field alone does
not guarantee completion. -/
theorem claim_full_generation_counterexample :
    (run_full_generation [] (.dict ⟨some "A", none, none⟩) "g").2
        = .error .binasciiError
    ∧ hasAudioField (.dict ⟨some "A", none, none⟩) = true :=
  ⟨rfl, rfl⟩

/-- C8 amended: the full-generation call fails with the
UnexpectedPayloadFormat condition iff the response payload is not an
object containing the audio field; when the field is present and validly
encoded, the call completes, decodes it and writes full_generation.wav
under the output directory. -/
theorem claim_full_generation_format (outDir : FsPath)
    (payload : APIPayload) (genLog : String) :
    ((run_full_generation outDir payload genLog).2
        = .error (.valueError
          "Full-generation API returned an unexpected payload format.")
      ↔ hasAudioField payload = false)
    ∧ (∀ p s bs, payload = .dict p → p.base64_wav = some s →
        b64decode s = some bs →
        run_full_generation outDir payload genLog
          = ([Event.mkdir outDir,
              Event.write (outDir ++ ["full_generation.wav"]) bs],
             .ok (bs, ⟨p.sample_rate.getD 0, p.num_samples.getD 0,
               outDir ++ ["full_generation.wav"], bs.length⟩, genLog))) := by
  constructor
  · rcases payload with p | _
    · rcases hs : p.base64_wav with _ | s
      · simp [run_full_generation, hs, hasAudioField]
      · rcases hb : b64decode s with _ | bs
        · simp [run_full_generation, hs, hb, hasAudioField]
        · simp [run_full_generation, hs, hb, hasAudioField]
    · simp [run_full_generation, hasAudioField]
  · intro p s bs hdict hs hb
    subst hdict
    simp [run_full_generation, hs, hb]

theorem claim_full_generation_format_witness :
    run_full_generation ["demo"] (.dict ⟨some "QUJD", none, none⟩) "glog"
      = ([Event.mkdir ["demo"],
          Event.write (["demo"] ++ ["full_generation.wav"]) [65, 66, 67]],
         .ok ([65, 66, 67],
           ⟨0, 0, ["demo"] ++ ["full_generation.wav"], 3⟩, "glog")) := by
  exact (claim_full_generation_format ["demo"]
      (.dict ⟨some "QUJD", none, none⟩) "glog").2
    ⟨some "QUJD", none, none⟩ "QUJD" [65, 66, 67] rfl rfl rfl

/-- C9: transport-encoding arbitrary bytes and then decoding returns the
original bytes exactly, and decoding the same payload twice yields
byte-identical output. -/
theorem claim_b64_roundtrip_deterministic (bs : Bytes)
    (hb : ∀ b ∈ bs, b < 256) (s : String) (r1 r2 : Bytes) :
    b64decode (b64encode bs) = some bs
    ∧ (b64decode s = some r1 → b64decode s = some r2 → r1 = r2) := by
  refine ⟨b64decode_b64encode bs hb, fun h1 h2 => ?_⟩
  rw [h1] at h2
  exact Option.some.inj h2

theorem claim_b64_roundtrip_deterministic_witness :
    b64decode (b64encode [65, 66, 67]) = some [65, 66, 67] :=
  (claim_b64_roundtrip_deterministic [65, 66, 67] (by decide) "" [] []).1

/-- C10: an update with a non-empty payload whose type is neither chunk
nor final is silently ignored: no events, no error, no sequence number
consumed, and removing it from the updates list does not change the
result of update processing. -/
theorem claim_unknown_type_ignored (cd fp : FsPath) (ci : Nat) (u : Update)
    (p : Payload) (hp : u.payload = some p) (hne : p.isEmpty = false)
    (hc : u.type ≠ some "chunk") (hf : u.type ≠ some "final") :
    processUpdate cd fp ci u = ([], .ok ci)
    ∧ ∀ us1 us2, processUpdates cd fp ci (us1 ++ u :: us2)
        = processUpdates cd fp ci (us1 ++ us2) := by
  refine ⟨processUpdate_other cd fp ci u p hp hne hc hf, fun us1 us2 => ?_⟩
  exact noop_insert_aux cd fp u
    (fun ci3 => processUpdate_other cd fp ci3 u p hp hne hc hf) us1 ci us2

theorem claim_unknown_type_ignored_witness :
    processUpdate ["demo", "stream_chunks"] ["demo", "final_stream.wav"] 3
        ⟨some "status", some ⟨none, some 24000, none⟩⟩
      = ([], .ok 3) :=
  (claim_unknown_type_ignored ["demo", "stream_chunks"]
    ["demo", "final_stream.wav"] 3
    ⟨some "status", some ⟨none, some 24000, none⟩⟩
    ⟨none, some 24000, none⟩ rfl rfl (by decide) (by decide)).1

end ApiDemo
